import Mathlib

/-!
Verification development for the paper-reader-agent repository.

This file gives a shallow embedding, in Lean 4, of the algorithmic core of
the repository and proves the specification claims about it:

* `code/agents/process_pdf.py` — `PDFProcessor.split_text`;
* `code/agents/vector_store.py` — `VectorStoreBuilder.create_vector_store`
  and `load_vector_store`;
* `code/agents/reference_downloader.py` — `download_single_reference` and
  `_is_similar_paper`;
* `code/agents/reference_extractor.py` — the confidence scores assigned by
  the parser stages;
* `code/agents/reference_manager.py` — the consent log operations.

Python text is modelled as `List Char`; Python numbers appearing in the
claims (confidence scores) as `ℚ`; calls to external services (the Ollama
embedding endpoint, the arXiv/PubMed HTTP APIs) are modelled as oracles
passed in as explicit arguments; file contents as lists of lines.
-/

namespace PaperReader

/-! ### Python string primitives -/

/-- Python `str.strip()`: remove leading and trailing whitespace. -/
def pyStrip (s : List Char) : List Char :=
  ((s.dropWhile Char.isWhitespace).reverse.dropWhile Char.isWhitespace).reverse

/-- Python slice `s[a:b]` (for `a ≤ b`; out-of-range ends are clamped,
as in Python). -/
def pySlice (s : List Char) (a b : Nat) : List Char :=
  (s.take b).drop a

/-- Python `str.split()` with no separator: split on runs of whitespace,
dropping empty words. -/
def pyWords (s : List Char) : List (List Char) :=
  (s.splitOnP Char.isWhitespace).filter (fun w => w ≠ [])

/-- Python `str.lower()` (ASCII case folding, which is what the titles in
this code path use). -/
def pyLower (s : List Char) : List Char :=
  s.map Char.toLower

/-- Python `sub in s` on strings: substring test. -/
def pyContains (s sub : List Char) : Bool :=
  s.tails.any (fun t => sub.isPrefixOf t)

/-! ### Embedding of `PDFProcessor.split_text` (process_pdf.py, lines 83-106)

The `while start < len(text)` loop is embedded with explicit fuel: the
result is `none` when the fuel runs out, so a loop that never reaches the
`break`/exit conditions yields `none` for every fuel value.  One loop
iteration computes `end = min(start + chunk_size, len(text))`, appends the
stripped slice `text[start:end]` when non-empty, breaks when
`end == len(text)`, and otherwise continues from `start = end - overlap`
(clamped at 0, which is exactly `Nat` subtraction). -/

/-- The `while` loop of `split_text`, with fuel. -/
def splitTextLoop (text : List Char) (chunkSize overlap : Nat) :
    Nat → Nat → List (List Char) → Option (List (List Char))
  | 0, _, _ => none
  | fuel + 1, start, chunks =>
    if start < text.length then
      let e := min (start + chunkSize) text.length
      let chunk := pyStrip (pySlice text start e)
      let chunks1 := if chunk ≠ [] then chunks ++ [chunk] else chunks
      if e = text.length then
        some chunks1
      else
        splitTextLoop text chunkSize overlap fuel (e - overlap) chunks1
    else
      some chunks

/-- Embedding of `PDFProcessor.split_text(text, chunk_size, overlap)`.  The fuel
`text.length + 1` is enough for any terminating run (the start index never
leaves `[0, len)` and strictly increases when `chunk_size > overlap`). -/
def split_text (text : List Char) (chunkSize overlap : Nat) :
    Option (List (List Char)) :=
  if pyStrip text = [] then some []
  else splitTextLoop text chunkSize overlap (text.length + 1) 0 []

/-! ### Embedding of `VectorStoreBuilder.create_vector_store` (vector_store.py, lines 46-135)

The Ollama embedding service is modelled as an oracle: for each chunk
index, a function from the attempt number to the outcome of that call —
`some v` when the response carries an `'embedding'` field with vector `v`
(line 72), `none` when the call raises or the field is missing (both land
in the same `except` branch, lines 75-86).  Vectors are lists of exact
rationals. -/

/-- An embedding vector. -/
abbrev Emb := List ℚ

/-- Per-chunk oracle: outcome of the service call at each attempt. -/
abbrev AttemptOracle := Nat → Option Emb

/-- Trace of the `for attempt in range(3)` retry loop for one chunk:
the final result, how many calls were made, and the `time.sleep`
durations performed (line 81: `2 ** attempt` before each retry). -/
structure RetryTrace where
  result : Option Emb
  attempts : Nat
  sleeps : List Nat
  deriving DecidableEq

/-- The retry loop of lines 65-86, unrolled from `range(3)`: attempt 0,
on failure sleep `2 ** 0` and retry; attempt 1, on failure sleep `2 ** 1`
and retry; attempt 2, on failure give up (`attempt < 2` is false, so the
chunk is recorded as failed and `None` is appended). -/
def embedWithRetry (call : AttemptOracle) : RetryTrace :=
  match call 0 with
  | some v => ⟨some v, 1, []⟩
  | none =>
    match call 1 with
    | some v => ⟨some v, 2, [2 ^ 0]⟩
    | none =>
      match call 2 with
      | some v => ⟨some v, 3, [2 ^ 0, 2 ^ 1]⟩
      | none => ⟨none, 3, [2 ^ 0, 2 ^ 1]⟩

/-- The embedding recorded for one chunk (`batch_embeddings.append(...)`,
lines 73 and 85): the vector on success, `None` after three failures. -/
def embed_chunk (call : AttemptOracle) : Option Emb :=
  (embedWithRetry call).result

/-- The batch loop of lines 57-88: `for i in range(0, len(all_chunks),
batch_size)` takes the slice `all_chunks[i:i+batch_size]` (whose length is
`min batch_size remaining`) and processes each chunk of it at global index
`i + j`, extending the `embeddings` list in order.  The chunk text enters
only the service call, which the oracle models, so the per-batch result is
a map over the in-batch positions.  The outer `except` of lines 90-93 is
unreachable (every exception is caught inside the per-chunk loop).
Python's `range` raises on step 0; all theorems assume `0 < batchSize`
(the source default is 50) and the `batchSize = 0` branch here is a
placeholder. -/
def embedBatchLoop (oracle : Nat → AttemptOracle) (batchSize : Nat)
    (chunks : List (List Char)) (i0 : Nat) : List (Option Emb) :=
  if h : batchSize = 0 ∨ chunks = [] then []
  else
    ((List.range (min batchSize chunks.length)).map
        (fun j => embed_chunk (oracle (i0 + j))))
      ++ embedBatchLoop oracle batchSize (chunks.drop batchSize) (i0 + batchSize)
termination_by chunks.length
decreasing_by
  push_neg at h
  have hlen : 0 < chunks.length := List.length_pos.mpr h.2
  simp only [List.length_drop]
  omega

/-- The `failed_indices` list (lines 53, 84): the loop appends `chunk_index`
exactly when that chunk's entry in `embeddings` ends up `None`, so the
failed list is the ascending list of `None`-positions. -/
def noneIndices {α : Type} : List (Option α) → List Nat
  | [] => []
  | none :: es => 0 :: (noneIndices es).map (· + 1)
  | some _ :: es => (noneIndices es).map (· + 1)

/-- One guarded deletion (lines 99-104): `if idx < len(l): del l[idx]`. -/
def pyDelAt {α : Type} (l : List α) (idx : Nat) : List α :=
  if idx < l.length then l.eraseIdx idx else l

/-- The condition of the comprehension at lines 126-127:
`emb is not None and emb in consistent_embeddings` for the entry of
`embeddings` at position `i` (Python `in` is membership by value). -/
def validIdxPred (es1 : List (Option Emb)) (consistent : List Emb)
    (i : Nat) : Bool :=
  match es1.get? i with
  | some (some e) => decide (e ∈ consistent)
  | _ => false

/-- Result of `create_vector_store`: the vectors added to the FAISS index
(`none` when the function returns `None` for the index), the returned
`valid_chunks` and `valid_metadata`, and the final contents of the
caller's `all_chunks` and `metadata` lists (which the function mutates in
place at lines 98-102). -/
structure CVSResult (α : Type) where
  index : Option (List Emb)
  validChunks : List (List Char)
  validMetadata : List α
  allChunksAfter : List (List Char)
  metadataAfter : List α

/-- Embedding of `VectorStoreBuilder.create_vector_store(all_chunks, metadata,
batch_size)` (lines 46-135).  `sorted(failed_indices, reverse=True)` is
the reverse of the ascending `noneIndices`; the deletion loop is a left
fold of the guarded `del` over that descending list, applied to
`all_chunks`, `metadata` and `embeddings` alike.  The comprehension
`[i for i, emb in enumerate(embeddings) if emb is not None and emb in
consistent_embeddings]` uses Python `in`, i.e. membership by value.
Indexing `all_chunks[i]` / `metadata[i]` raises when out of range, which
the surrounding `try` of lines 120-135 turns into `(None, [], [])`; the
guard below models that. -/
def create_vector_store {α : Type} (oracle : Nat → AttemptOracle)
    (batchSize : Nat) (all_chunks : List (List Char)) (metadata : List α) :
    CVSResult α :=
  if all_chunks = [] then ⟨none, [], [], all_chunks, metadata⟩
  else
    let es := embedBatchLoop oracle batchSize all_chunks 0
    let failedDesc := (noneIndices es).reverse
    let chunks1 := failedDesc.foldl pyDelAt all_chunks
    let metadata1 := failedDesc.foldl pyDelAt metadata
    let es1 := failedDesc.foldl pyDelAt es
    let valid_embeddings := es1.filterMap id
    match valid_embeddings with
    | [] => ⟨none, [], [], chunks1, metadata1⟩
    | v0 :: rest =>
      let dimension := v0.length
      let consistent := (v0 :: rest).filter (fun e => decide (e.length = dimension))
      let valid_indices := (List.range es1.length).filter
        (validIdxPred es1 consistent)
      if valid_indices.all
          (fun i => decide (i < chunks1.length) && decide (i < metadata1.length)) then
        ⟨some consistent,
         valid_indices.filterMap (fun i => chunks1.get? i),
         valid_indices.filterMap (fun i => metadata1.get? i),
         chunks1, metadata1⟩
      else ⟨none, [], [], chunks1, metadata1⟩

/-- Specification-side helper (not from the source): the entries of `l`
at the positions where the parallel list `es` holds `some`. -/
def keepSome {α β : Type} : List α → List (Option β) → List α
  | [], _ => []
  | _, [] => []
  | a :: l, some _ :: es => a :: keepSome l es
  | _ :: l, none :: es => keepSome l es

/-! ### The `Reference` dataclass (reference_extractor.py, lines 22-33) -/

/-- The `Reference` dataclass: parsed bibliographic fields.  Strings are `List Char`,
the confidence is an exact rational. -/
structure Reference where
  authors : List Char
  title : List Char
  journal : List Char
  year : List Char
  doi : Option (List Char) := none
  url : Option (List Char) := none
  raw_text : List Char := []
  confidence : ℚ := 0
  extraction_method : List Char := "regex".toList
  deriving DecidableEq

/-! ### Embedding of `ReferenceDownloader._is_similar_paper` (reference_downloader.py,
lines 441-483)

The float comparison `overlap < 0.3` with
`overlap = len(ref_words ∩ title_words) / len(ref_words)` is modelled
exactly over the rationals: it is equivalent to
`10 * |ref_words ∩ title_words| < 3 * |ref_words|`. -/

/-- Embedding of `_is_similar_paper(reference, title, authors)`. -/
def is_similar_paper (ref : Reference) (title : List Char)
    (authors : List (List Char)) : Bool :=
  if title = [] ∨ ref.title = [] then false
  else
    let refWords := (pyWords (pyLower ref.title)).dedup
    let titleWords := (pyWords (pyLower title)).dedup
    if 0 < refWords.length ∧
        10 * (refWords.filter (fun w => decide (w ∈ titleWords))).length
          < 3 * refWords.length then
      false
    else if ref.year ≠ [] ∧ pyContains title ref.year then
      true
    else if authors ≠ [] ∧ ref.authors ≠ [] ∧
        (authors.any (fun author =>
          ((ref.authors.splitOn ',').map (fun name => pyLower (pyStrip name))).any
            (fun refAuthor =>
              pyContains (pyLower author) refAuthor
                || pyContains refAuthor (pyLower author)))) then
      true
    else
      true

/-! ### Embedding of `ReferenceDownloader.download_single_reference`
(reference_downloader.py, lines 91-140)

The two HTTP-backed searches `_search_arxiv` and `_search_pubmed` are
modelled as oracle fields of the environment: each either returns a URL,
returns `None`, or raises (the `except` at line 131 turns a raise into
"continue with the next method").  `_search_google_scholar`
(lines 293-329) is a placeholder that always returns `None`, which is
embedded as such.  `_download_pdf` is an oracle from URL to the saved
file path (`None` on any failure, lines 366-401), and
`_check_existing_download` (lines 423-439) is the `existing` field. -/

/-- Outcome of one search-method call. -/
inductive SearchOutcome where
  | found (url : List Char)
  | notFound
  | raised
  deriving DecidableEq

/-- The three strategies, in the order of the `search_methods` list
(lines 112-116). -/
inductive SearchMethod where
  | arxiv
  | pubmed
  | googleScholar
  deriving DecidableEq

/-- Environment of one `download_single_reference` call. -/
structure DownloadEnv where
  existing : Option (List Char)
  arxiv : SearchOutcome
  pubmed : SearchOutcome
  downloadPdf : List Char → Option (List Char)

/-- The `_search_google_scholar` placeholder always returns `None` (line 325). -/
def search_google_scholar : SearchOutcome := SearchOutcome.notFound

/-- Dispatch a strategy to its modelled outcome. -/
def methodOutcome (env : DownloadEnv) : SearchMethod → SearchOutcome
  | SearchMethod.arxiv => env.arxiv
  | SearchMethod.pubmed => env.pubmed
  | SearchMethod.googleScholar => search_google_scholar

/-- The `search_methods` list (lines 112-116). -/
def searchMethods : List SearchMethod :=
  [SearchMethod.arxiv, SearchMethod.pubmed, SearchMethod.googleScholar]

/-- Status of a `download_single_reference` result dict. -/
inductive DownloadStatus where
  | skipped
  | success (source : SearchMethod)
  | failed
  deriving DecidableEq

/-- Result of `download_single_reference`, together with the trace of the
strategies that were actually invoked, in order. -/
structure DownloadResult where
  status : DownloadStatus
  filePath : Option (List Char)
  invoked : List SearchMethod

/-- The `for method in search_methods` loop (lines 118-133): call the
method; on a URL, try `_download_pdf` and return success if it yields a
path; on `None`, a failed download, or a raise, continue.  Returns the
invocation trace and the first success, if any. -/
def cascadeLoop (env : DownloadEnv) :
    List SearchMethod → List SearchMethod × Option (SearchMethod × List Char)
  | [] => ([], none)
  | m :: ms =>
    match methodOutcome env m with
    | SearchOutcome.found url =>
      match env.downloadPdf url with
      | some path => ([m], some (m, path))
      | none =>
        let r := cascadeLoop env ms
        (m :: r.1, r.2)
    | _ =>
      let r := cascadeLoop env ms
      (m :: r.1, r.2)

/-- Embedding of `download_single_reference(reference)` (lines 91-140). -/
def download_single_reference (env : DownloadEnv) : DownloadResult :=
  match env.existing with
  | some path => ⟨DownloadStatus.skipped, some path, []⟩
  | none =>
    match cascadeLoop env searchMethods with
    | (tr, some (m, path)) => ⟨DownloadStatus.success m, some path, tr⟩
    | (tr, none) => ⟨DownloadStatus.failed, none, tr⟩

/-- Whether a strategy would yield a completed PDF download in `env`:
the search returns a URL and `_download_pdf` saves it. -/
def methodSucceeds (env : DownloadEnv) (m : SearchMethod) : Bool :=
  match methodOutcome env m with
  | SearchOutcome.found url => (env.downloadPdf url).isSome
  | _ => false

/-! ### Parser-stage confidence scores (reference_extractor.py)

`_create_reference_from_match` (lines 285-403) builds a `Reference` from
a regex match: the capture groups are modelled as a list of optional
strings.  In every citation pattern the groups read with `.strip()`
(authors, title, journal) and the year group are mandatory captures; a
`None` there would make `.strip()` raise, which the `except` of line 400
turns into `None`, and that is how the `none`-group branches below are
embedded.  The confidence constants are the ones at lines 318, 337, 356,
376, 397. -/

/-- Citation format keys of `self.citation_patterns` (lines 72-97). -/
inductive CitationFormat where
  | apa
  | mla
  | chicago
  | ieee
  | generic
  deriving DecidableEq

/-- Python `match.groups()[i]`. -/
def groupStr (groups : List (Option (List Char))) (i : Nat) :
    Option (List Char) :=
  (groups.get? i).getD none

/-- Embedding of `_create_reference_from_match(match, format_name, raw_text)`. -/
def create_reference_from_match (fmt : CitationFormat)
    (groups : List (Option (List Char))) (raw : List Char) :
    Option Reference :=
  match fmt with
  | CitationFormat.apa =>
    if 7 ≤ groups.length then
      match groupStr groups 0, groupStr groups 1, groupStr groups 2,
          groupStr groups 3 with
      | some g0, some g1, some g2, some g3 =>
        some { authors := pyStrip g0, year := g1, title := pyStrip g2,
               journal := pyStrip g3,
               doi := if 7 < groups.length then groupStr groups 7 else none,
               raw_text := raw, confidence := 9/10 }
      | _, _, _, _ => none
    else none
  | CitationFormat.mla =>
    if 6 ≤ groups.length then
      match groupStr groups 0, groupStr groups 1, groupStr groups 2,
          groupStr groups 5 with
      | some g0, some g1, some g2, some g5 =>
        some { authors := pyStrip g0, title := pyStrip g1,
               journal := pyStrip g2, year := g5,
               raw_text := raw, confidence := 85/100 }
      | _, _, _, _ => none
    else none
  | CitationFormat.chicago =>
    if 7 ≤ groups.length then
      match groupStr groups 0, groupStr groups 1, groupStr groups 2,
          groupStr groups 5 with
      | some g0, some g1, some g2, some g5 =>
        some { authors := pyStrip g0, title := pyStrip g1,
               journal := pyStrip g2, year := g5,
               raw_text := raw, confidence := 85/100 }
      | _, _, _, _ => none
    else none
  | CitationFormat.ieee =>
    if 8 ≤ groups.length then
      match groupStr groups 0, groupStr groups 1, groupStr groups 2,
          groupStr groups 7 with
      | some g0, some g1, some g2, some g7 =>
        some { authors := pyStrip g0, title := pyStrip g1,
               journal := pyStrip g2, year := g7,
               raw_text := raw, confidence := 8/10 }
      | _, _, _, _ => none
    else none
  | CitationFormat.generic =>
    if 7 ≤ groups.length then
      match groupStr groups 0, groupStr groups 1, groupStr groups 2,
          groupStr groups 3 with
      | some g0, some g1, some g2, some g3 =>
        some { authors := pyStrip g0, year := g1, title := pyStrip g2,
               journal := pyStrip g3,
               doi := if 7 < groups.length then groupStr groups 7 else none,
               raw_text := raw, confidence := 7/10 }
      | _, _, _, _ => none
    else none

/-- The decision tail of `_extract_basic_reference_info` (lines 493-514).
The arguments are the field values produced by the regex scans of lines
415-490 (author/title/journal/year extraction), passed abstractly; the
function builds the partial-field fallback `Reference` with confidence
0.6 when authors, title and year are all non-empty, 0.4 when only
authors and title are, and `None` otherwise. -/
def extract_basic_reference_info (authors title journal year : List Char)
    (doi : Option (List Char)) (entry : List Char) : Option Reference :=
  if authors ≠ [] ∧ title ≠ [] ∧ year ≠ [] then
    some { authors := authors, title := title, journal := journal,
           year := year, doi := doi, raw_text := entry, confidence := 6/10 }
  else if authors ≠ [] ∧ title ≠ [] then
    some { authors := authors, title := title, journal := journal,
           year := year, doi := doi, raw_text := entry, confidence := 4/10 }
  else
    none

/-- The `Reference` built for one AI-returned dict in
`_process_chunk_with_ai` (lines 651-663): every field is taken from the
model's JSON output; in particular the confidence is
`float(ref_data.get('confidence', 0.5))` — the model-reported number,
with 0.5 substituted only when the key is absent. -/
def ai_reference (chunk : List Char) (authors title journal year : List Char)
    (doi : Option (List Char)) (dataConfidence : Option ℚ) : Reference :=
  { authors := authors, title := title, journal := journal, year := year,
    doi := doi, raw_text := chunk,
    confidence := dataConfidence.getD (1/2),
    extraction_method := "ai".toList }

/-! ### Consent log (reference_manager.py)

The log file is modelled as `Option (List ConsentRecord)`: `none` when
the file does not exist, otherwise the list of its lines, each line being
the JSON serialization of one record (serialization is modelled by the
record itself). -/

/-- The `ConsentRecord` dataclass (reference_manager.py, lines 18-28). -/
structure ConsentRecord where
  timestamp : List Char
  user_id : List Char
  pdf_filename : List Char
  total_references : Nat
  selected_references : Nat
  download_path : List Char
  consent_given : Bool
  session_id : List Char
  deriving DecidableEq

/-- The consent-log file state. -/
abbrev ConsentLog := Option (List ConsentRecord)

/-- Embedding of `_init_consent_log` (lines 66-70): create an empty file only when
none exists. -/
def init_consent_log : ConsentLog → ConsentLog
  | none => some []
  | some ls => some ls

/-- Embedding of `log_consent` (lines 131-143): `open(path, 'a')` appends one line
`json.dumps(asdict(record)) + '\n'` (append mode creates the file when it
is missing). -/
def log_consent (r : ConsentRecord) (s : ConsentLog) : ConsentLog :=
  some (s.getD [] ++ [r])

/-- Embedding of `get_consent_history` (lines 145-170): read the lines, keep those
matching the user filter, stop once `limit` records are collected; a
missing file raises at `open` and the `except` returns the empty list.
The file itself is not written. -/
def get_consent_history (userFilter : Option (List Char)) (limit : Nat)
    (s : ConsentLog) : List ConsentRecord :=
  match s with
  | none => []
  | some ls =>
    (ls.filter (fun r =>
      match userFilter with
      | none => true
      | some u => decide (r.user_id = u))).take limit

/-- The `ReferenceManager` operations that touch the consent-log file. -/
inductive ManagerOp where
  | initLog
  | logConsent (r : ConsentRecord)
  | getHistory (userFilter : Option (List Char)) (limit : Nat)

/-- Effect of one operation on the consent-log file.  `get_consent_history`
only reads. -/
def applyOp : ManagerOp → ConsentLog → ConsentLog
  | ManagerOp.initLog, s => init_consent_log s
  | ManagerOp.logConsent r, s => log_consent r s
  | ManagerOp.getHistory _ _, s => s

/-! ### Error boundaries (C8)

Exceptions are modelled with `Except`: the effectful body of each
function is passed in as its outcome. -/

/-- A Python exception (its message). -/
abbrev PyExc := List Char

/-- Embedding of `ReferenceExtractor.extract_references_from_pdf` (reference_extractor.py,
lines 102-134).  `sectionResult` is the outcome of opening the PDF and
running `_find_reference_section`; `extract` is the outcome of the chosen
extraction path on the section text.  Both run inside the single `try`,
whose `except` returns `[]`; an empty section returns `[]` early. -/
def extract_references_from_pdf (sectionResult : Except PyExc (List Char))
    (extract : List Char → Except PyExc (List Reference)) : List Reference :=
  match sectionResult with
  | Except.error _ => []
  | Except.ok s =>
    if s = [] then []
    else
      match extract s with
      | Except.error _ => []
      | Except.ok refs => refs

/-- Embedding of `VectorStoreBuilder.load_vector_store` (vector_store.py, lines
137-152): `faiss.read_index` and the pickle load each either produce a
value or raise; any raise lands in the single `except`, which returns
`(None, None, None)`. -/
def load_vector_store {α : Type} (readIndex : Except PyExc (List Emb))
    (readMeta : Except PyExc (List (List Char) × List α)) :
    Option (List Emb) × Option (List (List Char)) × Option (List α) :=
  match readIndex with
  | Except.error _ => (none, none, none)
  | Except.ok idx =>
    match readMeta with
    | Except.error _ => (none, none, none)
    | Except.ok (chunks, metadata) => (some idx, some chunks, some metadata)

/-- Specification-side helper: the per-chunk embedding outcomes of
`create_vector_store` in chunk order (what the `embeddings` list holds
right after the batch loop). -/
def cvsEmbeds (oracle : Nat → AttemptOracle) (chunks : List (List Char)) :
    List (Option Emb) :=
  (List.range chunks.length).map (fun i => embed_chunk (oracle i))

/-! ### Concrete sample data used by witness theorems -/

/-- Sample capture groups for one APA citation match. -/
def sampleGroups : List (Option (List Char)) :=
  [some "Smith, J.".toList, some "2020".toList, some "A study".toList,
   some "Journal".toList, some "5".toList, none, some "1-10".toList]

/-- The `Reference` that `_create_reference_from_match` builds from
`sampleGroups` under the APA format. -/
def samplePatternRef : Reference :=
  { authors := "Smith, J.".toList, title := "A study".toList,
    journal := "Journal".toList, year := "2020".toList, doi := none,
    raw_text := "r".toList, confidence := 9/10 }

/-- The `Reference` that the partial-field fallback builds from authors
and title only (no year). -/
def sampleBasicRef : Reference :=
  { authors := "Smith".toList, title := "A study of things".toList,
    journal := [], year := [], doi := none, raw_text := "e".toList,
    confidence := 4/10 }

/-- Witness oracle: chunk 0 embeds as `[1, 2]`, chunk 1 always fails,
chunk 2 embeds as `[3]` (a dimension mismatch). -/
def wOracle : Nat → AttemptOracle := fun i _a =>
  if i = 0 then some [1, 2] else if i = 2 then some [3] else none

/-- Witness chunk list. -/
def wChunks : List (List Char) := ["a".toList, "b".toList, "c".toList]

/-- Witness metadata list. -/
def wMeta : List Nat := [10, 20, 30]

/-! ## Theorems -/

/-! ### C9 — termination of `split_text` -/

theorem splitTextLoop_isSome (text : List Char) (cs ov : Nat) (hov : ov < cs) :
    ∀ (fuel start : Nat) (chunks : List (List Char)),
      text.length - start < fuel →
      (splitTextLoop text cs ov fuel start chunks).isSome = true := by
  intro fuel
  induction fuel with
  | zero => intro start chunks h; omega
  | succ fuel ih =>
    intro start chunks h
    rw [splitTextLoop]
    by_cases hs : start < text.length
    · simp only [hs, if_true]
      by_cases he : min (start + cs) text.length = text.length
      · simp [he]
      · simp only [he, if_false]
        exact ih _ _ (by omega)
    · simp [hs]

theorem splitTextLoop_stuck (text : List Char) (cs ov : Nat)
    (hov : cs ≤ ov) (hlen : cs < text.length) :
    ∀ (fuel : Nat) (chunks : List (List Char)),
      splitTextLoop text cs ov fuel 0 chunks = none := by
  intro fuel
  induction fuel with
  | zero => intro chunks; rfl
  | succ fuel ih =>
    intro chunks
    rw [splitTextLoop]
    have h0 : 0 < text.length := by omega
    have he : min (0 + cs) text.length = cs := by omega
    simp only [h0, if_true, he]
    have hne : ¬ (cs = text.length) := by omega
    simp only [hne, if_false]
    have hz : cs - ov = 0 := by omega
    rw [hz]
    exact ih _

/-- C9: `PDFProcessor.split_text` terminates for every input text when
`chunk_size > overlap` (the loop's start index strictly advances by
`chunk_size - overlap` until the end of the text), and when
`chunk_size ≤ overlap` and the text is longer than `chunk_size` the start
index is reset to 0 on every iteration, so the loop never finishes for
any amount of fuel. -/
theorem split_text_termination (text : List Char) (cs ov : Nat) :
    (ov < cs → (split_text text cs ov).isSome = true) ∧
    (cs ≤ ov → cs < text.length →
      ∀ (fuel : Nat) (chunks : List (List Char)),
        splitTextLoop text cs ov fuel 0 chunks = none) := by
  constructor
  · intro hov
    rw [split_text]
    by_cases hstrip : pyStrip text = []
    · simp [hstrip]
    · simp only [hstrip, if_false]
      exact splitTextLoop_isSome text cs ov hov _ 0 [] (by omega)
  · intro hov hlen
    exact splitTextLoop_stuck text cs ov hov hlen

/-- C9 witness: the default parameters (2000, 200) terminate on a sample
text, and a degenerate pair (3, 3) loops forever on the same text. -/
theorem split_text_termination_witness :
    ((200 < 2000) ∧ (split_text "hello world".toList 2000 200).isSome = true) ∧
    ((3 ≤ 3) ∧ (3 < "hello world".toList.length) ∧
      splitTextLoop "hello world".toList 3 3 5 0 [] = none) :=
  ⟨⟨by decide, (split_text_termination "hello world".toList 2000 200).1 (by decide)⟩,
   ⟨by decide, by decide,
     (split_text_termination "hello world".toList 3 3).2 (by decide) (by decide) 5 []⟩⟩

/-! ### C5 — `_is_similar_paper` is the 30% word-overlap test -/

/-- C5: for non-empty titles on both sides, `_is_similar_paper` accepts
exactly when at least 30% of the distinct words of the reference title
occur in the candidate title (the float test `overlap < 0.3` is the exact
rational test `10·|inter| < 3·|ref words|`; every branch after that test
returns `True`). -/
theorem is_similar_paper_overlap_iff (ref : Reference) (title : List Char)
    (authors : List (List Char)) (ht : title ≠ []) (hrt : ref.title ≠ []) :
    (is_similar_paper ref title authors = true ↔
      3 * ((pyWords (pyLower ref.title)).dedup).length ≤
        10 * (((pyWords (pyLower ref.title)).dedup).filter
          (fun w => decide (w ∈ (pyWords (pyLower title)).dedup))).length) := by
  rw [is_similar_paper]
  have hcond : ¬ (title = [] ∨ ref.title = []) := by
    push_neg
    exact ⟨ht, hrt⟩
  simp only [hcond, if_false]
  set n := ((pyWords (pyLower ref.title)).dedup).length with hn
  set k := (((pyWords (pyLower ref.title)).dedup).filter
    (fun w => decide (w ∈ (pyWords (pyLower title)).dedup))).length with hk
  by_cases hlow : 0 < n ∧ 10 * k < 3 * n
  · simp only [hlow, if_true]
    constructor
    · intro h; exact absurd h (by simp)
    · intro h; omega
  · simp only [hlow, if_false]
    constructor
    · intro _
      rcases Nat.lt_or_ge n 1 with h1 | h1
      · omega
      · by_contra hc
        exact hlow ⟨by omega, by omega⟩
    · intro _
      split
      · rfl
      · split
        · rfl
        · rfl

/-- C5 witness: reference title "deep learning", candidate "deep things":
1 of 2 distinct words overlap (50% ≥ 30%), and the test accepts. -/
theorem is_similar_paper_overlap_iff_witness :
    ("deep things".toList ≠ []) ∧
    (is_similar_paper
        { authors := [], title := "deep learning".toList, journal := [],
          year := [] } "deep things".toList [] = true ↔
      3 * ((pyWords (pyLower "deep learning".toList)).dedup).length ≤
        10 * (((pyWords (pyLower "deep learning".toList)).dedup).filter
          (fun w => decide (w ∈ (pyWords (pyLower "deep things".toList)).dedup))).length) :=
  ⟨by decide,
    is_similar_paper_overlap_iff
      { authors := [], title := "deep learning".toList, journal := [],
        year := [] } "deep things".toList [] (by decide) (by decide)⟩

/-! ### C7 — the consent log is append-only -/

/-- C7: `log_consent` appends exactly one line (its record) at the end of
the log, leaving all previously written lines unchanged; initialization
creates an empty file only when none exists; and every `ReferenceManager`
operation touching the log file extends it on the right, never mutating
or deleting an existing record. -/
theorem consent_log_append_only :
    (∀ (r : ConsentRecord) (s : ConsentLog),
        log_consent r s = some (s.getD [] ++ [r])) ∧
    (∀ (ls : List ConsentRecord), init_consent_log (some ls) = some ls) ∧
    (init_consent_log none = some []) ∧
    (∀ (op : ManagerOp) (s : ConsentLog),
        ∃ tail, (applyOp op s).getD [] = s.getD [] ++ tail) := by
  refine ⟨fun r s => rfl, fun ls => rfl, rfl, fun op s => ?_⟩
  cases op with
  | initLog =>
    cases s with
    | none => exact ⟨[], rfl⟩
    | some ls => exact ⟨[], (List.append_nil ls).symm⟩
  | logConsent r => exact ⟨[r], rfl⟩
  | getHistory u limit => exact ⟨[], (List.append_nil _).symm⟩

/-! ### C8 — broad exception boundaries return sentinels -/

/-- C8: when its body raises, `ReferenceExtractor.extract_references_from_pdf`
returns the empty list (whether the PDF open/section scan raises or the
downstream extraction raises), and `VectorStoreBuilder.load_vector_store`
returns `(None, None, None)` when either the index read or the metadata
read raises. -/
theorem boundary_exceptions_to_sentinels :
    (∀ (e : PyExc) (extract : List Char → Except PyExc (List Reference)),
        extract_references_from_pdf (Except.error e) extract = []) ∧
    (∀ (s : List Char) (extract : List Char → Except PyExc (List Reference))
        (e : PyExc), extract s = Except.error e →
        extract_references_from_pdf (Except.ok s) extract = []) ∧
    (∀ (α : Type) (e : PyExc)
        (readMeta : Except PyExc (List (List Char) × List α)),
        load_vector_store (Except.error e) readMeta = (none, none, none)) ∧
    (∀ (α : Type) (idx : List Emb) (e : PyExc),
        load_vector_store (α := α) (Except.ok idx) (Except.error e)
          = (none, none, none)) := by
  refine ⟨fun e extract => rfl, fun s extract e he => ?_, fun α e m => rfl,
    fun α idx e => rfl⟩
  rw [extract_references_from_pdf]
  by_cases hs : s = []
  · simp [hs]
  · simp only [hs, if_false, he]

/-- C8 witness: a raising extraction body yields `[]` on a concrete
non-empty section. -/
theorem boundary_exceptions_to_sentinels_witness :
    extract_references_from_pdf (Except.ok "x".toList)
      (fun _ => Except.error "boom".toList) = [] :=
  boundary_exceptions_to_sentinels.2.1 "x".toList
    (fun _ => Except.error "boom".toList) "boom".toList rfl

/-! ### C4 — the download cascade and its priority order -/

/-- C4: for a reference not already downloaded, the strategies are tried
in the fixed order arXiv, PubMed, Google-Scholar fallback; the cascade
stops at the first strategy whose search URL downloads successfully (no
later strategy is invoked); and `failed` is returned exactly when no
strategy succeeds, in which case all three were tried. -/
theorem download_cascade_first_success (env : DownloadEnv)
    (h : env.existing = none) :
    (methodSucceeds env SearchMethod.arxiv = true →
      (download_single_reference env).status
          = DownloadStatus.success SearchMethod.arxiv ∧
      (download_single_reference env).invoked = [SearchMethod.arxiv]) ∧
    (methodSucceeds env SearchMethod.arxiv = false →
      methodSucceeds env SearchMethod.pubmed = true →
      (download_single_reference env).status
          = DownloadStatus.success SearchMethod.pubmed ∧
      (download_single_reference env).invoked
          = [SearchMethod.arxiv, SearchMethod.pubmed]) ∧
    (methodSucceeds env SearchMethod.arxiv = false →
      methodSucceeds env SearchMethod.pubmed = false →
      (download_single_reference env).status = DownloadStatus.failed ∧
      (download_single_reference env).invoked = searchMethods) ∧
    ((download_single_reference env).status = DownloadStatus.failed ↔
      ∀ m ∈ searchMethods, methodSucceeds env m = false) := by
  obtain ⟨ex, ax, pm, dl⟩ := env
  replace h : ex = none := h
  subst h
  cases ax with
  | found u =>
    cases hdl : dl u with
    | some p =>
      simp [download_single_reference, cascadeLoop, searchMethods,
        methodOutcome, methodSucceeds, search_google_scholar, hdl]
    | none =>
      cases pm with
      | found v =>
        cases hdl2 : dl v with
        | some q =>
          simp [download_single_reference, cascadeLoop, searchMethods,
            methodOutcome, methodSucceeds, search_google_scholar, hdl, hdl2]
        | none =>
          simp [download_single_reference, cascadeLoop, searchMethods,
            methodOutcome, methodSucceeds, search_google_scholar, hdl, hdl2]
      | notFound =>
        simp [download_single_reference, cascadeLoop, searchMethods,
          methodOutcome, methodSucceeds, search_google_scholar, hdl]
      | raised =>
        simp [download_single_reference, cascadeLoop, searchMethods,
          methodOutcome, methodSucceeds, search_google_scholar, hdl]
  | notFound =>
    cases pm with
    | found v =>
      cases hdl2 : dl v with
      | some q =>
        simp [download_single_reference, cascadeLoop, searchMethods,
          methodOutcome, methodSucceeds, search_google_scholar, hdl2]
      | none =>
        simp [download_single_reference, cascadeLoop, searchMethods,
          methodOutcome, methodSucceeds, search_google_scholar, hdl2]
    | notFound =>
      simp [download_single_reference, cascadeLoop, searchMethods,
        methodOutcome, methodSucceeds, search_google_scholar]
    | raised =>
      simp [download_single_reference, cascadeLoop, searchMethods,
        methodOutcome, methodSucceeds, search_google_scholar]
  | raised =>
    cases pm with
    | found v =>
      cases hdl2 : dl v with
      | some q =>
        simp [download_single_reference, cascadeLoop, searchMethods,
          methodOutcome, methodSucceeds, search_google_scholar, hdl2]
      | none =>
        simp [download_single_reference, cascadeLoop, searchMethods,
          methodOutcome, methodSucceeds, search_google_scholar, hdl2]
    | notFound =>
      simp [download_single_reference, cascadeLoop, searchMethods,
        methodOutcome, methodSucceeds, search_google_scholar]
    | raised =>
      simp [download_single_reference, cascadeLoop, searchMethods,
        methodOutcome, methodSucceeds, search_google_scholar]

/-- C4 witness: arXiv fails, PubMed finds a URL that downloads — the
result is a PubMed success and the Scholar fallback is never invoked. -/
theorem download_cascade_first_success_witness :
    (download_single_reference
        ⟨none, SearchOutcome.notFound, SearchOutcome.found "u".toList,
          fun _ => some "p".toList⟩).status
      = DownloadStatus.success SearchMethod.pubmed ∧
    (download_single_reference
        ⟨none, SearchOutcome.notFound, SearchOutcome.found "u".toList,
          fun _ => some "p".toList⟩).invoked
      = [SearchMethod.arxiv, SearchMethod.pubmed] :=
  (download_cascade_first_success
    ⟨none, SearchOutcome.notFound, SearchOutcome.found "u".toList,
      fun _ => some "p".toList⟩ rfl).2.1 rfl rfl

/-! ### C3 — parser-stage confidence scores (corrected) -/

theorem confidence_of_match (fmt : CitationFormat)
    (groups : List (Option (List Char))) (raw : List Char) (rp : Reference)
    (hp : create_reference_from_match fmt groups raw = some rp) :
    rp.confidence = 9/10 ∨ rp.confidence = 85/100 ∨ rp.confidence = 8/10 ∨
      rp.confidence = 7/10 := by
  cases fmt with
  | apa =>
    rw [create_reference_from_match] at hp
    split at hp
    · split at hp
      · simp only [Option.some_inj] at hp
        subst hp
        left; rfl
      · exact Option.noConfusion hp
    · exact Option.noConfusion hp
  | mla =>
    rw [create_reference_from_match] at hp
    split at hp
    · split at hp
      · simp only [Option.some_inj] at hp
        subst hp
        right; left; rfl
      · exact Option.noConfusion hp
    · exact Option.noConfusion hp
  | chicago =>
    rw [create_reference_from_match] at hp
    split at hp
    · split at hp
      · simp only [Option.some_inj] at hp
        subst hp
        right; left; rfl
      · exact Option.noConfusion hp
    · exact Option.noConfusion hp
  | ieee =>
    rw [create_reference_from_match] at hp
    split at hp
    · split at hp
      · simp only [Option.some_inj] at hp
        subst hp
        right; right; left; rfl
      · exact Option.noConfusion hp
    · exact Option.noConfusion hp
  | generic =>
    rw [create_reference_from_match] at hp
    split at hp
    · split at hp
      · simp only [Option.some_inj] at hp
        subst hp
        right; right; right; rfl
      · exact Option.noConfusion hp
    · exact Option.noConfusion hp

theorem confidence_of_basic (authors title journal year : List Char)
    (doi : Option (List Char)) (entry : List Char) (rb : Reference)
    (hb : extract_basic_reference_info authors title journal year doi entry
      = some rb) :
    rb.confidence = 6/10 ∨ rb.confidence = 4/10 := by
  rw [extract_basic_reference_info] at hb
  split at hb
  · simp only [Option.some_inj] at hb
    subst hb
    left; rfl
  · split at hb
    · simp only [Option.some_inj] at hb
      subst hb
      right; rfl
    · exact absurd hb (by simp)

/-- C3 counterexample: the partial-field fallback can produce confidence
0.4 while an AI-assisted reference carries the default confidence 0.5, so
the fallback stage is NOT strictly above the AI stage; and the AI stage
copies the model-reported value verbatim, which can exceed 1, so
extraction confidence is not confined to [0,1]. -/
theorem parser_stage_confidence_counterexample :
    (extract_basic_reference_info "Smith".toList "A study of things".toList
        [] [] none "e".toList).map (fun r => r.confidence)
      = some (4/10 : ℚ) ∧
    (ai_reference "c".toList [] [] [] [] none none).confidence = (1/2 : ℚ) ∧
    ¬ ((4 : ℚ)/10 > 1/2) ∧
    (1 : ℚ) < (ai_reference "c".toList [] [] [] [] none
      (some (3/2))).confidence := by
  refine ⟨rfl, rfl, by norm_num, ?_⟩
  show (1 : ℚ) < (3/2 : ℚ)
  norm_num

/-- C3 (amended): every reference produced by a fully-matched citation
pattern has confidence in [0,1] (one of 0.9, 0.85, 0.8, 0.7), every
partial-field fallback reference has confidence in [0,1] (0.6 or 0.4),
and every pattern-stage reference has strictly higher confidence than
every fallback reference.  AI-assisted references instead carry the
model-reported confidence verbatim (0.5 only when the key is absent),
which is neither bounded to [0,1] nor ordered below the other stages. -/
theorem parser_stage_confidence_order (fmt : CitationFormat)
    (groups : List (Option (List Char))) (raw : List Char)
    (authors title journal year : List Char) (doi : Option (List Char))
    (entry : List Char) (rp rb : Reference)
    (hp : create_reference_from_match fmt groups raw = some rp)
    (hb : extract_basic_reference_info authors title journal year doi entry
      = some rb) :
    (0 ≤ rp.confidence ∧ rp.confidence ≤ 1) ∧
    (0 ≤ rb.confidence ∧ rb.confidence ≤ 1) ∧
    rb.confidence < rp.confidence ∧
    (∀ (chunk a t j y : List Char) (d : Option (List Char)) (c : ℚ),
        (ai_reference chunk a t j y d (some c)).confidence = c) ∧
    (∀ (chunk a t j y : List Char) (d : Option (List Char)),
        (ai_reference chunk a t j y d none).confidence = 1/2) := by
  have h1 := confidence_of_match fmt groups raw rp hp
  have h2 := confidence_of_basic authors title journal year doi entry rb hb
  refine ⟨?_, ?_, ?_, fun chunk a t j y d c => rfl, fun chunk a t j y d => rfl⟩
  · rcases h1 with h | h | h | h <;> rw [h] <;> norm_num
  · rcases h2 with h | h <;> rw [h] <;> norm_num
  · rcases h1 with h | h | h | h <;> rcases h2 with h2a | h2a <;>
      rw [h, h2a] <;> norm_num

/-- C3 witness: a concrete APA pattern match (confidence 0.9) against a
concrete fallback reference (confidence 0.4). -/
theorem parser_stage_confidence_order_witness :
    (0 ≤ samplePatternRef.confidence ∧ samplePatternRef.confidence ≤ 1) ∧
    (0 ≤ sampleBasicRef.confidence ∧ sampleBasicRef.confidence ≤ 1) ∧
    sampleBasicRef.confidence < samplePatternRef.confidence ∧
    (∀ (chunk a t j y : List Char) (d : Option (List Char)) (c : ℚ),
        (ai_reference chunk a t j y d (some c)).confidence = c) ∧
    (∀ (chunk a t j y : List Char) (d : Option (List Char)),
        (ai_reference chunk a t j y d none).confidence = 1/2) :=
  parser_stage_confidence_order CitationFormat.apa sampleGroups "r".toList
    "Smith".toList "A study of things".toList [] [] none "e".toList
    samplePatternRef sampleBasicRef rfl rfl

/-! ### Vector store lemmas -/

theorem embedBatchLoop_eq_aux (oracle : Nat → AttemptOracle) (bs : Nat)
    (hbs : 0 < bs) :
    ∀ (n : Nat) (chunks : List (List Char)) (i0 : Nat), chunks.length ≤ n →
      embedBatchLoop oracle bs chunks i0 =
        (List.range chunks.length).map
          (fun j => embed_chunk (oracle (i0 + j))) := by
  intro n
  induction n with
  | zero =>
    intro chunks i0 hle
    have hc : chunks = [] := List.length_eq_zero.mp (Nat.le_zero.mp hle)
    subst hc
    rw [embedBatchLoop]
    simp
  | succ n ih =>
    intro chunks i0 hle
    rw [embedBatchLoop]
    by_cases hc : chunks = []
    · simp [hc]
    · rw [dif_neg (by push_neg; exact ⟨by omega, hc⟩)]
      rw [ih (chunks.drop bs) (i0 + bs)
        (by rw [List.length_drop]; omega)]
      rw [List.length_drop]
      rcases Nat.le_total chunks.length bs with hle2 | hlt
      · have hmin : min bs chunks.length = chunks.length := by omega
        have hz : chunks.length - bs = 0 := by omega
        rw [hmin, hz]
        simp
      · have hmin : min bs chunks.length = bs := by omega
        rw [hmin]
        have hsplit : chunks.length = bs + (chunks.length - bs) := by omega
        have hr : (List.range chunks.length).map
            (fun j => embed_chunk (oracle (i0 + j)))
            = (List.range bs).map (fun j => embed_chunk (oracle (i0 + j)))
              ++ (List.range (chunks.length - bs)).map
                  (fun j => embed_chunk (oracle (i0 + bs + j))) := by
          conv_lhs => rw [hsplit]
          rw [List.range_add, List.map_append, List.map_map]
          congr 1
          apply List.map_congr_left
          intro j hj
          simp [Function.comp, Nat.add_assoc]
        rw [hr]

/-- The batch loop visits every chunk exactly once, in order, regardless
of which chunks fail. -/
theorem embedBatchLoop_spec (oracle : Nat → AttemptOracle) (bs : Nat)
    (hbs : 0 < bs) (chunks : List (List Char)) (i0 : Nat) :
    embedBatchLoop oracle bs chunks i0 =
      (List.range chunks.length).map (fun j => embed_chunk (oracle (i0 + j))) :=
  embedBatchLoop_eq_aux oracle bs hbs chunks.length chunks i0 (Nat.le_refl _)

theorem pyDelAt_cons_succ {α : Type} (a : α) (l : List α) (i : Nat) :
    pyDelAt (a :: l) (i + 1) = a :: pyDelAt l i := by
  rw [pyDelAt, pyDelAt]
  by_cases h : i < l.length
  · rw [if_pos (by simp only [List.length_cons]; omega), if_pos h,
      List.eraseIdx_cons_succ]
  · rw [if_neg (by simp only [List.length_cons]; omega), if_neg h]

theorem foldrDel_map_succ {α : Type} (idxs : List Nat) (a : α) (l : List α) :
    (idxs.map (· + 1)).foldr (fun i acc => pyDelAt acc i) (a :: l)
      = a :: idxs.foldr (fun i acc => pyDelAt acc i) l := by
  induction idxs with
  | nil => rfl
  | cons i idxs ih =>
    simp only [List.map_cons, List.foldr_cons, ih, pyDelAt_cons_succ]

/-- Deleting the `None` positions, largest index first, from any list
parallel to `es` keeps exactly the entries at the `some` positions. -/
theorem foldrDel_noneIndices {α β : Type} :
    ∀ (es : List (Option β)) (l : List α), l.length = es.length →
      (noneIndices es).foldr (fun i acc => pyDelAt acc i) l = keepSome l es := by
  intro es
  induction es with
  | nil =>
    intro l hl
    have : l = [] := List.length_eq_zero.mp hl
    subst this
    rfl
  | cons e es ih =>
    intro l hl
    cases l with
    | nil => simp at hl
    | cons a l =>
      have hl2 : l.length = es.length := by simpa using hl
      cases e with
      | none =>
        show (noneIndices (none :: es)).foldr (fun i acc => pyDelAt acc i)
            (a :: l) = keepSome l es
        rw [noneIndices, List.foldr_cons, foldrDel_map_succ]
        rw [pyDelAt, if_pos (by simp)]
        rw [List.eraseIdx_cons_zero]
        exact ih l hl2
      | some b =>
        show (noneIndices (some b :: es)).foldr (fun i acc => pyDelAt acc i)
            (a :: l) = a :: keepSome l es
        rw [noneIndices, foldrDel_map_succ]
        rw [ih l hl2]

theorem keepSome_self {β : Type} :
    ∀ es : List (Option β), keepSome es es = (es.filterMap id).map some := by
  intro es
  induction es with
  | nil => rfl
  | cons e es ih =>
    cases e with
    | none =>
      show keepSome es es = ((none :: es).filterMap id).map some
      rw [ih]
      rfl
    | some b =>
      show some b :: keepSome es es = ((some b :: es).filterMap id).map some
      rw [ih]
      rfl

/-- Pointwise origin of the entries surviving the deletion phase. -/
theorem forall2_keepSome {α β : Type} :
    ∀ (es : List (Option β)) (l : List α), l.length = es.length →
      List.Forall₂ (fun a v => ∃ i, l.get? i = some a ∧ es.get? i = some (some v))
        (keepSome l es) (es.filterMap id) := by
  intro es
  induction es with
  | nil =>
    intro l hl
    have : l = [] := List.length_eq_zero.mp hl
    subst this
    exact List.Forall₂.nil
  | cons e es ih =>
    intro l hl
    cases l with
    | nil => simp at hl
    | cons a l =>
      have hl2 : l.length = es.length := by simpa using hl
      cases e with
      | some b =>
        show List.Forall₂ _ (a :: keepSome l es) (b :: es.filterMap id)
        refine List.Forall₂.cons ⟨0, rfl, rfl⟩ ?_
        refine (ih l hl2).imp ?_
        rintro x v ⟨i, h1, h2⟩
        exact ⟨i + 1, by simpa using h1, by simpa using h2⟩
      | none =>
        show List.Forall₂ _ (keepSome l es) (es.filterMap id)
        refine (ih l hl2).imp ?_
        rintro x v ⟨i, h1, h2⟩
        exact ⟨i + 1, by simpa using h1, by simpa using h2⟩

theorem keepSome_length {α β : Type} (es : List (Option β)) (l : List α)
    (hl : l.length = es.length) :
    (keepSome l es).length = (es.filterMap id).length :=
  (forall2_keepSome es l hl).length_eq

theorem filterMap_id_map_some {β : Type} (l : List β) :
    (l.map some).filterMap id = l := by
  rw [List.filterMap_map]
  show l.filterMap some = l
  exact List.filterMap_some l

theorem filterMap_get_cons_succ {δ : Type} (a : δ) (cs1 : List δ)
    (VI : List Nat) :
    (List.map Nat.succ VI).filterMap (fun i => (a :: cs1).get? i)
      = VI.filterMap (fun i => cs1.get? i) := by
  rw [List.filterMap_map]
  rfl

/-- Membership in `l.filter q` coincides with `q` on elements of `l`, so
filtering `l` by that membership test is filtering by `q`. -/
theorem filter_mem_filter (l : List Emb) (q : Emb → Bool) :
    l.filter (fun e => decide (e ∈ l.filter q)) = l.filter q := by
  apply List.filter_congr
  intro e he
  simp [List.mem_filter, he]

/-- Joint characterization of the `valid_indices` selection applied to a
list parallel to the embeddings: every selected index is in range, and
the selected entries of the parallel list line up pointwise with the
membership-filtered embeddings. -/
theorem select_spec {γ : Type} (c : List Emb) :
    ∀ (ve : List Emb) (cs1 : List γ), cs1.length = ve.length →
      (∀ i ∈ (List.range ve.length).filter (validIdxPred (ve.map some) c),
          i < ve.length) ∧
      List.Forall₂ (fun a v => ∃ i, cs1.get? i = some a ∧ ve.get? i = some v)
        (((List.range ve.length).filter
            (validIdxPred (ve.map some) c)).filterMap
          (fun i => cs1.get? i))
        (ve.filter (fun e => decide (e ∈ c))) := by
  intro ve
  induction ve with
  | nil =>
    intro cs1 h
    exact ⟨fun i hi => by simp at hi, List.Forall₂.nil⟩
  | cons x ve ih =>
    intro cs1 h
    cases cs1 with
    | nil => simp at h
    | cons a cs1 =>
      have h2 : cs1.length = ve.length := by simpa using h
      obtain ⟨ih2, ih3⟩ := ih cs1 h2
      have hsucc : (validIdxPred ((x :: ve).map some) c) ∘ Nat.succ
          = validIdxPred (ve.map some) c := rfl
      have h0 : validIdxPred ((x :: ve).map some) c 0 = decide (x ∈ c) := rfl
      have hshift : List.Forall₂
          (fun a2 v => ∃ i, (a :: cs1).get? i = some a2 ∧
            (x :: ve).get? i = some v)
          (((List.range ve.length).filter
              (validIdxPred (ve.map some) c)).filterMap
            (fun i => cs1.get? i))
          (ve.filter (fun e => decide (e ∈ c))) := by
        refine ih3.imp ?_
        rintro a2 v ⟨i, h1, hv⟩
        exact ⟨i + 1, by simpa using h1, by simpa using hv⟩
      by_cases hxc : x ∈ c
      · have hVI : (List.range (x :: ve).length).filter
            (validIdxPred ((x :: ve).map some) c)
            = 0 :: List.map Nat.succ
                ((List.range ve.length).filter (validIdxPred (ve.map some) c)) := by
          rw [List.length_cons, List.range_succ_eq_map, List.filter_cons, h0,
            if_pos (by simpa using hxc), List.filter_map, hsucc]
        constructor
        · intro i hi
          rw [hVI] at hi
          simp only [List.mem_cons, List.mem_map] at hi
          rcases hi with rfl | ⟨j, hj, rfl⟩
          · simp
          · have := ih2 j hj
            simp only [List.length_cons]
            omega
        · rw [hVI]
          have hhead : (0 :: List.map Nat.succ
              ((List.range ve.length).filter
                (validIdxPred (ve.map some) c))).filterMap
              (fun i => (a :: cs1).get? i)
              = a :: (List.map Nat.succ
                  ((List.range ve.length).filter
                    (validIdxPred (ve.map some) c))).filterMap
                (fun i => (a :: cs1).get? i) := rfl
          rw [hhead, filterMap_get_cons_succ]
          have hfr : (x :: ve).filter (fun e => decide (e ∈ c))
              = x :: ve.filter (fun e => decide (e ∈ c)) := by
            rw [List.filter_cons, if_pos (by simpa using hxc)]
          rw [hfr]
          exact List.Forall₂.cons ⟨0, rfl, rfl⟩ hshift
      · have hVI : (List.range (x :: ve).length).filter
            (validIdxPred ((x :: ve).map some) c)
            = List.map Nat.succ
                ((List.range ve.length).filter (validIdxPred (ve.map some) c)) := by
          rw [List.length_cons, List.range_succ_eq_map, List.filter_cons, h0,
            if_neg (by simpa using hxc), List.filter_map, hsucc]
        constructor
        · intro i hi
          rw [hVI] at hi
          simp only [List.mem_map] at hi
          rcases hi with ⟨j, hj, rfl⟩
          have := ih2 j hj
          simp only [List.length_cons]
          omega
        · rw [hVI, filterMap_get_cons_succ]
          have hfr : (x :: ve).filter (fun e => decide (e ∈ c))
              = ve.filter (fun e => decide (e ∈ c)) := by
            rw [List.filter_cons, if_neg (by simpa using hxc)]
          rw [hfr]
          exact hshift

theorem embedBatchLoop_cvsEmbeds (oracle : Nat → AttemptOracle) (bs : Nat)
    (hbs : 0 < bs) (chunks : List (List Char)) :
    embedBatchLoop oracle bs chunks 0 = cvsEmbeds oracle chunks := by
  rw [embedBatchLoop_spec oracle bs hbs, cvsEmbeds]
  simp

theorem cvsEmbeds_length (oracle : Nat → AttemptOracle)
    (chunks : List (List Char)) :
    (cvsEmbeds oracle chunks).length = chunks.length := by
  rw [cvsEmbeds]
  simp

/-- Behaviour of `create_vector_store` when no chunk embeds successfully (or the input
is empty): the failure sentinel, with the caller's lists already filtered
down to the successful (i.e. no) entries. -/
theorem cvs_nil_case {α : Type} (oracle : Nat → AttemptOracle) (bs : Nat)
    (chunks : List (List Char)) (metadata : List α)
    (hbs : 0 < bs) (hlen : chunks.length = metadata.length)
    (hve : (cvsEmbeds oracle chunks).filterMap id = []) :
    create_vector_store oracle bs chunks metadata
      = ⟨none, [], [], keepSome chunks (cvsEmbeds oracle chunks),
          keepSome metadata (cvsEmbeds oracle chunks)⟩ := by
  by_cases hc : chunks = []
  · subst hc
    have hm : metadata = [] := List.length_eq_zero.mp hlen.symm
    subst hm
    rfl
  · have hclen : chunks.length = (cvsEmbeds oracle chunks).length :=
      (cvsEmbeds_length oracle chunks).symm
    have hmlen : metadata.length = (cvsEmbeds oracle chunks).length := by
      rw [← hlen]
      exact hclen
    simp only [create_vector_store, if_neg hc,
      embedBatchLoop_cvsEmbeds oracle bs hbs, List.foldl_reverse,
      foldrDel_noneIndices (cvsEmbeds oracle chunks) chunks hclen,
      foldrDel_noneIndices (cvsEmbeds oracle chunks) metadata hmlen,
      foldrDel_noneIndices (cvsEmbeds oracle chunks) (cvsEmbeds oracle chunks)
        rfl,
      keepSome_self, filterMap_id_map_some, hve]

/-- Behaviour of `create_vector_store` when at least one chunk embeds successfully:
the index holds the dimension-consistent embeddings, the valid chunk and
metadata lists are the `valid_indices` selections over the
deletion-filtered caller lists, and the caller lists hold exactly the
successful entries. -/
theorem cvs_cons_case {α : Type} (oracle : Nat → AttemptOracle) (bs : Nat)
    (chunks : List (List Char)) (metadata : List α)
    (hbs : 0 < bs) (hlen : chunks.length = metadata.length)
    (v0 : Emb) (rest : List Emb)
    (hve : (cvsEmbeds oracle chunks).filterMap id = v0 :: rest) :
    create_vector_store oracle bs chunks metadata
      = ⟨some ((v0 :: rest).filter (fun e => decide (e.length = v0.length))),
          ((List.range (v0 :: rest).length).filter
            (validIdxPred ((v0 :: rest).map some)
              ((v0 :: rest).filter
                (fun e => decide (e.length = v0.length))))).filterMap
            (fun i => (keepSome chunks (cvsEmbeds oracle chunks)).get? i),
          ((List.range (v0 :: rest).length).filter
            (validIdxPred ((v0 :: rest).map some)
              ((v0 :: rest).filter
                (fun e => decide (e.length = v0.length))))).filterMap
            (fun i => (keepSome metadata (cvsEmbeds oracle chunks)).get? i),
          keepSome chunks (cvsEmbeds oracle chunks),
          keepSome metadata (cvsEmbeds oracle chunks)⟩ := by
  have hc : chunks ≠ [] := by
    intro h
    subst h
    simp [cvsEmbeds] at hve
  have hclen : chunks.length = (cvsEmbeds oracle chunks).length :=
    (cvsEmbeds_length oracle chunks).symm
  have hmlen : metadata.length = (cvsEmbeds oracle chunks).length := by
    rw [← hlen]
    exact hclen
  have hkc : (keepSome chunks (cvsEmbeds oracle chunks)).length
      = (v0 :: rest).length := by
    rw [keepSome_length (cvsEmbeds oracle chunks) chunks hclen, hve]
  have hkm : (keepSome metadata (cvsEmbeds oracle chunks)).length
      = (v0 :: rest).length := by
    rw [keepSome_length (cvsEmbeds oracle chunks) metadata hmlen, hve]
  have hsel := (select_spec
    ((v0 :: rest).filter (fun e => decide (e.length = v0.length)))
    (v0 :: rest) (keepSome chunks (cvsEmbeds oracle chunks)) hkc).1
  have hguard : (((List.range (v0 :: rest).length).filter
      (validIdxPred ((v0 :: rest).map some)
        ((v0 :: rest).filter (fun e => decide (e.length = v0.length))))).all
      (fun i =>
        decide (i < (keepSome chunks (cvsEmbeds oracle chunks)).length)
          && decide
            (i < (keepSome metadata (cvsEmbeds oracle chunks)).length)))
      = true := by
    rw [List.all_eq_true]
    intro i hi
    have hlt : i < (v0 :: rest).length := hsel i hi
    rw [hkc, hkm]
    simp only [Bool.and_eq_true, decide_eq_true_eq, List.length_cons]
    simp only [List.length_cons] at hlt
    omega
  simp only [create_vector_store, if_neg hc,
    embedBatchLoop_cvsEmbeds oracle bs hbs, List.foldl_reverse,
    foldrDel_noneIndices (cvsEmbeds oracle chunks) chunks hclen,
    foldrDel_noneIndices (cvsEmbeds oracle chunks) metadata hmlen,
    foldrDel_noneIndices (cvsEmbeds oracle chunks) (cvsEmbeds oracle chunks)
      rfl,
    keepSome_self, filterMap_id_map_some, hve, List.length_map]
  rw [if_pos hguard]

theorem cvsEmbeds_get (oracle : Nat → AttemptOracle)
    (chunks : List (List Char)) (i : Nat) (o : Option Emb) :
    (cvsEmbeds oracle chunks).get? i = some o ↔
      i < chunks.length ∧ o = embed_chunk (oracle i) := by
  rw [cvsEmbeds, List.get?_map]
  by_cases hi : i < chunks.length
  · rw [List.get?_range hi]
    simp [hi, eq_comm]
  · have hn : (List.range chunks.length).get? i = none := by
      rw [List.get?_eq_none]
      simp only [List.length_range]
      omega
    rw [hn]
    simp [hi]

theorem forall2_and_right_mem {α β : Type} {R : α → β → Prop} {Q : β → Prop} :
    ∀ {l1 : List α} {l2 : List β}, List.Forall₂ R l1 l2 →
      (∀ b ∈ l2, Q b) → List.Forall₂ (fun a b => R a b ∧ Q b) l1 l2 := by
  intro l1 l2 h
  induction h with
  | nil => intro _; exact List.Forall₂.nil
  | @cons a b l1t l2t hr _ ih =>
    intro hq
    exact List.Forall₂.cons ⟨hr, hq b (by simp)⟩
      (ih fun x hx => hq x (by simp [hx]))

/-- Convert the pointwise relation delivered by `select_spec` over the
deletion-filtered lists into a relation over the caller's original
lists. -/
theorem select_to_origin {γ : Type} (oracle : Nat → AttemptOracle)
    (chunks : List (List Char)) (l : List γ) (v0 : Emb) (rest : List Emb)
    (hve : (cvsEmbeds oracle chunks).filterMap id = v0 :: rest)
    (hllen : l.length = (cvsEmbeds oracle chunks).length)
    {lsel : List γ} {vsel : List Emb}
    (hsel : List.Forall₂
      (fun a v => ∃ i, (keepSome l (cvsEmbeds oracle chunks)).get? i = some a ∧
        (v0 :: rest).get? i = some v) lsel vsel) :
    List.Forall₂
      (fun a v => ∃ j, l.get? j = some a ∧ embed_chunk (oracle j) = some v)
      lsel vsel := by
  have hf2 := forall2_keepSome (cvsEmbeds oracle chunks) l hllen
  rw [hve] at hf2
  rw [List.forall₂_iff_get] at hf2
  obtain ⟨hlen2, hget⟩ := hf2
  refine hsel.imp ?_
  rintro a v ⟨i, h1, h2⟩
  obtain ⟨hb1, heq1⟩ := List.get?_eq_some.mp h1
  obtain ⟨hb2, heq2⟩ := List.get?_eq_some.mp h2
  have hr := hget i hb1 hb2
  rw [heq1, heq2] at hr
  obtain ⟨j, hj1, hj2⟩ := hr
  have := (cvsEmbeds_get oracle chunks j (some v)).mp hj2
  exact ⟨j, hj1, this.2.symm⟩

/-! ### C10 — in-place mutation of the caller's lists -/

/-- C10: after `create_vector_store`, the caller's `all_chunks` and
`metadata` lists hold exactly the entries whose embedding succeeded
(`keepSome` keeps the entries at the `some` positions of the parallel
embedding-outcome list, unchanged and in their original relative order;
every position whose embedding failed has been deleted by the
`del` loop). -/
theorem create_vector_store_caller_lists {α : Type}
    (oracle : Nat → AttemptOracle) (bs : Nat) (chunks : List (List Char))
    (metadata : List α) (hbs : 0 < bs)
    (hlen : chunks.length = metadata.length) :
    (create_vector_store oracle bs chunks metadata).allChunksAfter
        = keepSome chunks (cvsEmbeds oracle chunks) ∧
    (create_vector_store oracle bs chunks metadata).metadataAfter
        = keepSome metadata (cvsEmbeds oracle chunks) := by
  rcases hve : (cvsEmbeds oracle chunks).filterMap id with _ | ⟨v0, rest⟩
  · rw [cvs_nil_case oracle bs chunks metadata hbs hlen hve]
    exact ⟨rfl, rfl⟩
  · rw [cvs_cons_case oracle bs chunks metadata hbs hlen v0 rest hve]
    exact ⟨rfl, rfl⟩

/-- C10 witness: chunk 1 of three fails, so the caller's lists end as
the other two entries. -/
theorem create_vector_store_caller_lists_witness :
    ((0 < 50) ∧ wChunks.length = wMeta.length) ∧
    ((create_vector_store wOracle 50 wChunks wMeta).allChunksAfter
        = keepSome wChunks (cvsEmbeds wOracle wChunks) ∧
      (create_vector_store wOracle 50 wChunks wMeta).metadataAfter
        = keepSome wMeta (cvsEmbeds wOracle wChunks)) :=
  ⟨⟨by decide, rfl⟩,
    create_vector_store_caller_lists wOracle 50 wChunks wMeta (by decide) rfl⟩

/-! ### C6 — bounded retry, exponential backoff, per-chunk isolation -/

/-- C6: each chunk's embedding is attempted at most 3 times; the sleeps
performed are exactly `2^(a-1)` seconds before retry `a` (`a = 1, 2`);
the chunk is recorded as failed only after all three attempts fail; and
the batch loop still processes every chunk — the outcome list has one
entry per chunk, each depending only on that chunk's own calls. -/
theorem embedding_retry_bounded_backoff (call : AttemptOracle)
    (oracle : Nat → AttemptOracle) (bs : Nat) (chunks : List (List Char))
    (i0 : Nat) (hbs : 0 < bs) :
    (embedWithRetry call).attempts ≤ 3 ∧
    ((embedWithRetry call).sleeps
        = (List.range ((embedWithRetry call).attempts - 1)).map
            (fun a => 2 ^ a)) ∧
    ((embedWithRetry call).result = none ↔
        call 0 = none ∧ call 1 = none ∧ call 2 = none) ∧
    ((embedWithRetry call).result = none →
        (embedWithRetry call).attempts = 3) ∧
    embedBatchLoop oracle bs chunks i0
      = (List.range chunks.length).map
          (fun j => embed_chunk (oracle (i0 + j))) := by
  refine ⟨?_, ?_, ?_, ?_, embedBatchLoop_spec oracle bs hbs chunks i0⟩ <;>
    rcases h0 : call 0 with _ | v0 <;>
    rcases h1 : call 1 with _ | v1 <;>
    rcases h2 : call 2 with _ | v2 <;>
    simp [embedWithRetry, h0, h1, h2, List.range_succ, List.range_succ_eq_map]

/-- C6 witness: a call that fails twice then succeeds — 3 attempts,
sleeps `[1, 2]` — together with a concrete batch run. -/
theorem embedding_retry_bounded_backoff_witness :
    (0 < 50) ∧
    ((embedWithRetry (wOracle 1)).attempts ≤ 3 ∧
      ((embedWithRetry (wOracle 1)).sleeps
          = (List.range ((embedWithRetry (wOracle 1)).attempts - 1)).map
              (fun a => 2 ^ a)) ∧
      ((embedWithRetry (wOracle 1)).result = none ↔
          wOracle 1 0 = none ∧ wOracle 1 1 = none ∧ wOracle 1 2 = none) ∧
      ((embedWithRetry (wOracle 1)).result = none →
          (embedWithRetry (wOracle 1)).attempts = 3) ∧
      embedBatchLoop wOracle 50 wChunks 0
        = (List.range wChunks.length).map
            (fun j => embed_chunk (wOracle (0 + j)))) :=
  ⟨by decide,
    embedding_retry_bounded_backoff (wOracle 1) wOracle 50 wChunks 0
      (by decide)⟩

/-! ### C1 — parallel chunks/metadata/index arrays -/

/-- C1: under equal-length inputs, the returned `valid_chunks`,
`valid_metadata` and the vectors stored in the index have equal length,
and the i-th stored vector is exactly the embedding produced for the
chunk at the same position of `valid_chunks` (each pair originating from
one position of the caller's input whose embedding succeeded; chunks
whose embedding failed after all retries appear in none of the three). -/
theorem create_vector_store_parallel_arrays {α : Type}
    (oracle : Nat → AttemptOracle) (bs : Nat) (chunks : List (List Char))
    (metadata : List α) (hbs : 0 < bs)
    (hlen : chunks.length = metadata.length) :
    ((create_vector_store oracle bs chunks metadata).validChunks.length
        = (create_vector_store oracle bs chunks metadata).validMetadata.length) ∧
    ((create_vector_store oracle bs chunks metadata).validChunks.length
        = ((create_vector_store oracle bs chunks metadata).index.getD
            []).length) ∧
    List.Forall₂
      (fun ch v => ∃ i, chunks.get? i = some ch ∧
        embed_chunk (oracle i) = some v)
      (create_vector_store oracle bs chunks metadata).validChunks
      ((create_vector_store oracle bs chunks metadata).index.getD []) := by
  rcases hve : (cvsEmbeds oracle chunks).filterMap id with _ | ⟨v0, rest⟩
  · rw [cvs_nil_case oracle bs chunks metadata hbs hlen hve]
    exact ⟨rfl, rfl, List.Forall₂.nil⟩
  · have hclen : chunks.length = (cvsEmbeds oracle chunks).length :=
      (cvsEmbeds_length oracle chunks).symm
    have hmlen : metadata.length = (cvsEmbeds oracle chunks).length := by
      rw [← hlen]; exact hclen
    have hkc : (keepSome chunks (cvsEmbeds oracle chunks)).length
        = (v0 :: rest).length := by
      rw [keepSome_length (cvsEmbeds oracle chunks) chunks hclen, hve]
    have hkm : (keepSome metadata (cvsEmbeds oracle chunks)).length
        = (v0 :: rest).length := by
      rw [keepSome_length (cvsEmbeds oracle chunks) metadata hmlen, hve]
    have hmemf := filter_mem_filter (v0 :: rest)
      (fun e => decide (e.length = v0.length))
    have hselC := (select_spec
      ((v0 :: rest).filter (fun e => decide (e.length = v0.length)))
      (v0 :: rest) (keepSome chunks (cvsEmbeds oracle chunks)) hkc).2
    have hselM := (select_spec
      ((v0 :: rest).filter (fun e => decide (e.length = v0.length)))
      (v0 :: rest) (keepSome metadata (cvsEmbeds oracle chunks)) hkm).2
    rw [hmemf] at hselC hselM
    rw [cvs_cons_case oracle bs chunks metadata hbs hlen v0 rest hve]
    refine ⟨?_, ?_, ?_⟩
    · rw [hselC.length_eq, hselM.length_eq]
    · rw [hselC.length_eq]
      rfl
    · exact select_to_origin oracle chunks chunks v0 rest hve hclen hselC

/-- C1 witness: three chunks, one failing — the two successes line up
with their vectors (the mismatched-dimension one is dropped from the
index and the valid lists alike, keeping all three lengths equal). -/
theorem create_vector_store_parallel_arrays_witness :
    ((0 < 50) ∧ wChunks.length = wMeta.length) ∧
    (((create_vector_store wOracle 50 wChunks wMeta).validChunks.length
        = (create_vector_store wOracle 50 wChunks wMeta).validMetadata.length) ∧
      ((create_vector_store wOracle 50 wChunks wMeta).validChunks.length
        = ((create_vector_store wOracle 50 wChunks wMeta).index.getD
            []).length) ∧
      List.Forall₂
        (fun ch v => ∃ i, wChunks.get? i = some ch ∧
          embed_chunk (wOracle i) = some v)
        (create_vector_store wOracle 50 wChunks wMeta).validChunks
        ((create_vector_store wOracle 50 wChunks wMeta).index.getD [])) :=
  ⟨⟨by decide, rfl⟩,
    create_vector_store_parallel_arrays wOracle 50 wChunks wMeta
      (by decide) rfl⟩

/-! ### C2 — dimension consistency -/

/-- C2: when at least one embedding succeeds, the index dimension is the
length of the first successfully embedded vector `v0`, the stored vectors
are exactly the successful embeddings of that length (none of any other
length is added), and every returned valid chunk / metadata entry
corresponds to a stored vector of exactly that length — entries whose
embedding has a different length are excluded. -/
theorem create_vector_store_dimension_consistency {α : Type}
    (oracle : Nat → AttemptOracle) (bs : Nat) (chunks : List (List Char))
    (metadata : List α) (hbs : 0 < bs)
    (hlen : chunks.length = metadata.length) :
    ((cvsEmbeds oracle chunks).filterMap id = [] →
      (create_vector_store oracle bs chunks metadata).index = none) ∧
    (∀ (v0 : Emb) (rest : List Emb),
      (cvsEmbeds oracle chunks).filterMap id = v0 :: rest →
      (create_vector_store oracle bs chunks metadata).index
          = some ((v0 :: rest).filter
              (fun e => decide (e.length = v0.length))) ∧
      (∀ v ∈ (create_vector_store oracle bs chunks metadata).index.getD [],
          v.length = v0.length) ∧
      List.Forall₂
        (fun ch v => ∃ i, chunks.get? i = some ch ∧
          embed_chunk (oracle i) = some v ∧ v.length = v0.length)
        (create_vector_store oracle bs chunks metadata).validChunks
        ((create_vector_store oracle bs chunks metadata).index.getD []) ∧
      List.Forall₂
        (fun m v => ∃ i, metadata.get? i = some m ∧
          embed_chunk (oracle i) = some v ∧ v.length = v0.length)
        (create_vector_store oracle bs chunks metadata).validMetadata
        ((create_vector_store oracle bs chunks metadata).index.getD [])) := by
  constructor
  · intro hve
    rw [cvs_nil_case oracle bs chunks metadata hbs hlen hve]
  · intro v0 rest hve
    have hclen : chunks.length = (cvsEmbeds oracle chunks).length :=
      (cvsEmbeds_length oracle chunks).symm
    have hmlen : metadata.length = (cvsEmbeds oracle chunks).length := by
      rw [← hlen]; exact hclen
    have hkc : (keepSome chunks (cvsEmbeds oracle chunks)).length
        = (v0 :: rest).length := by
      rw [keepSome_length (cvsEmbeds oracle chunks) chunks hclen, hve]
    have hkm : (keepSome metadata (cvsEmbeds oracle chunks)).length
        = (v0 :: rest).length := by
      rw [keepSome_length (cvsEmbeds oracle chunks) metadata hmlen, hve]
    have hmemf := filter_mem_filter (v0 :: rest)
      (fun e => decide (e.length = v0.length))
    have hselC := (select_spec
      ((v0 :: rest).filter (fun e => decide (e.length = v0.length)))
      (v0 :: rest) (keepSome chunks (cvsEmbeds oracle chunks)) hkc).2
    have hselM := (select_spec
      ((v0 :: rest).filter (fun e => decide (e.length = v0.length)))
      (v0 :: rest) (keepSome metadata (cvsEmbeds oracle chunks)) hkm).2
    rw [hmemf] at hselC hselM
    have hdim : ∀ v ∈ (v0 :: rest).filter
        (fun e => decide (e.length = v0.length)), v.length = v0.length := by
      intro v hv
      have := (List.mem_filter.mp hv).2
      simpa using this
    have hC := forall2_and_right_mem
      (select_to_origin oracle chunks chunks v0 rest hve hclen hselC) hdim
    have hM := forall2_and_right_mem
      (select_to_origin oracle chunks metadata v0 rest hve hmlen hselM) hdim
    rw [cvs_cons_case oracle bs chunks metadata hbs hlen v0 rest hve]
    refine ⟨rfl, hdim, ?_, ?_⟩
    · refine hC.imp ?_
      rintro ch v ⟨⟨i, h1, h2⟩, hq⟩
      exact ⟨i, h1, h2, hq⟩
    · refine hM.imp ?_
      rintro m v ⟨⟨i, h1, h2⟩, hq⟩
      exact ⟨i, h1, h2, hq⟩

/-- C2 witness: first success `[1, 2]` fixes dimension 2; the later
success `[3]` (dimension 1) is excluded from the index and from the
valid lists. -/
theorem create_vector_store_dimension_consistency_witness :
    ((0 < 50) ∧ wChunks.length = wMeta.length ∧
      (cvsEmbeds wOracle wChunks).filterMap id = [1, 2] :: [[3]]) ∧
    ((create_vector_store wOracle 50 wChunks wMeta).index
        = some (([1, 2] :: [[3]]).filter
            (fun e => decide (e.length = ([1, 2] : Emb).length))) ∧
      (∀ v ∈ (create_vector_store wOracle 50 wChunks wMeta).index.getD [],
          v.length = ([1, 2] : Emb).length) ∧
      List.Forall₂
        (fun ch v => ∃ i, wChunks.get? i = some ch ∧
          embed_chunk (wOracle i) = some v ∧
          v.length = ([1, 2] : Emb).length)
        (create_vector_store wOracle 50 wChunks wMeta).validChunks
        ((create_vector_store wOracle 50 wChunks wMeta).index.getD []) ∧
      List.Forall₂
        (fun m v => ∃ i, wMeta.get? i = some m ∧
          embed_chunk (wOracle i) = some v ∧
          v.length = ([1, 2] : Emb).length)
        (create_vector_store wOracle 50 wChunks wMeta).validMetadata
        ((create_vector_store wOracle 50 wChunks wMeta).index.getD [])) :=
  ⟨⟨by decide, rfl, rfl⟩,
    (create_vector_store_dimension_consistency wOracle 50 wChunks wMeta
      (by decide) rfl).2 [1, 2] [[3]] rfl⟩

end PaperReader
